import Mathlib

/-!
Verification development for the QuizMe question-generation backend.

The definitions below are a shallow embedding of the TypeScript source:

* `validateChoices`, `validateAndFormatQuestions` embed the private methods
  of `OpenAIService` (src/src/auth/auth.controller.ts, second document):
  decoded JSON values are modelled by `JVal`, JavaScript strings by
  `String` / `List Char`, regex global substitution by an explicit scanner.
* `sanitizeText` / `truncateText` embed `FileProcessingService`
  (src/unnamed/part_006).
* `generateMultipleQuestions` embeds `QuestionsService.generateMultipleQuestions`
  (src/unnamed/part_002); the external model call is abstracted as an
  oracle argument producing the decoded `questions` array for a given
  question type and per-type count.
* `judgeAnswer` embeds the correctness comparison of
  `PracticeService.submitAnswer` (src/unnamed/part_001 bundle, practice
  service): both label arrays are sorted with the default lexicographic
  string sort and compared (JSON.stringify equality of two string arrays
  coincides with list equality).
-/

set_option maxRecDepth 20000
set_option maxHeartbeats 4000000

/-- Decoded JSON values, as produced by `JSON.parse` on the model response.
JavaScript `undefined` cannot appear in parsed JSON, so presence of an
object field is modelled by membership in the field list. Numbers are
modelled by `Int` (the coercions at issue only concern integral values). -/
inductive JVal where
  | str (s : String)
  | num (n : Int)
  | bool (b : Bool)
  | null
  | arr (xs : List JVal)
  | obj (fields : List (String × JVal))

/-- JavaScript `===` comparison of a decoded value against a string literal:
true exactly when the value is that string. -/
def jstrEq (v : JVal) (s : String) : Bool :=
  match v with
  | .str t => t == s
  | _ => false

/-- Field lookup in a decoded JSON object (parsed objects have unique keys). -/
def lookupField (fs : List (String × JVal)) (k : String) : Option JVal :=
  match fs.find? (fun p => p.1 == k) with
  | some p => some p.2
  | none => none

/-- One choice after validation: `{ label: string; content: string }`. -/
structure ChoiceItem where
  label : String
  content : String
deriving DecidableEq

/-- Question types of the Prisma `QuestionType` enum. -/
inductive QuestionType where
  | MULTIPLE_CHOICE
  | TRUE_FALSE
  | MULTIPLE_RESPONSE
  | MATCHING
  | COMPLETION
deriving DecidableEq

/-- A validated question (`GeneratedQuestion` in the source). The question
text is kept as a character list because the Completion repair rewrites it
character-wise; `correctAnswers` keeps decoded values because the source
only casts (never converts) the entries of the parsed `correctAnswers`. -/
structure GeneratedQuestion where
  question : List Char
  choices : List ChoiceItem
  correctAnswers : List JVal
  explanation : JVal
  type : QuestionType

/-- `isValidQuestionStructure`: the structural type guard of the source —
an object with a string `question`, an array `choices`, and a present
`correctAnswers`. -/
def isValidQuestionStructure (q : JVal) : Bool :=
  match q with
  | .obj fs =>
      (match lookupField fs "question" with | some (.str _) => true | _ => false)
      && (match lookupField fs "choices" with | some (.arr _) => true | _ => false)
      && (lookupField fs "correctAnswers").isSome
  | _ => false

/-- The decoded `choices` array of a raw question (defined when the guard holds). -/
def rawChoices (q : JVal) : List JVal :=
  match q with
  | .obj fs => match lookupField fs "choices" with | some (.arr xs) => xs | _ => []
  | _ => []

/-- The question text of a raw question (defined when the guard holds). -/
def rawQuestionText (q : JVal) : List Char :=
  match q with
  | .obj fs => match lookupField fs "question" with | some (.str s) => s.data | _ => []
  | _ => []

/-- `q.explanation ?? ''`: the explanation field with null/absent defaulting
to the empty string. -/
def rawExplanation (q : JVal) : JVal :=
  match q with
  | .obj fs =>
      match lookupField fs "explanation" with
      | some .null => .str ""
      | some v => v
      | none => .str ""
  | _ => .str ""

/-- `Array.isArray(q.correctAnswers) ? q.correctAnswers : [q.correctAnswers]`:
the supplied correct answers as a list of decoded values. -/
def suppliedAnswers (q : JVal) : List JVal :=
  match q with
  | .obj fs =>
      match lookupField fs "correctAnswers" with
      | some (.arr xs) => xs
      | some v => [v]
      | none => []
  | _ => []

/-- The choice-entry guard of `validateChoices`: a (non-null) object with
both a `label` and a `content` property. -/
def isChoiceObj (c : JVal) : Bool :=
  match c with
  | .obj fs => (lookupField fs "label").isSome && (lookupField fs "content").isSome
  | _ => false

/-- The coercion `validateChoices` applies to one field: strings kept,
numbers converted with `toString()`, anything else becomes `''`. -/
def coerceStr (v : Option JVal) : String :=
  match v with
  | some (.str s) => s
  | some (.num n) => toString n
  | _ => ""

/-- The per-entry result of `validateChoices` on a guarded entry. -/
def coerceChoice (c : JVal) : ChoiceItem :=
  match c with
  | .obj fs => ⟨coerceStr (lookupField fs "label"), coerceStr (lookupField fs "content")⟩
  | _ => ⟨"", ""⟩

/-- Index-carrying loop of `validateChoices`: map each entry, throwing
`Invalid choice structure at index i` at the first entry that is not an
object exposing `label` and `content`. -/
def vcAux : Nat → List JVal → Except String (List ChoiceItem)
  | _, [] => .ok []
  | i, c :: cs =>
      if isChoiceObj c then
        match vcAux (i + 1) cs with
        | .error e => .error e
        | .ok rest => .ok (coerceChoice c :: rest)
      else .error ("Invalid choice structure at index " ++ toString i)

/-- `OpenAIService.validateChoices`. -/
def validateChoices (cs : List JVal) : Except String (List ChoiceItem) :=
  vcAux 0 cs

/-- The whitespace class of JavaScript regex `\s` and `String.prototype.trim`
(space, tab, line and page breaks, and the Unicode space separators, written
by code point). -/
def jsWS (c : Char) : Bool :=
  c == ' ' || c == '\t' || c == '\n' || c == '\r' || c.toNat == 0x0b || c.toNat == 0x0c
  || c.toNat == 0xa0 || c.toNat == 0x1680 || (0x2000 ≤ c.toNat && c.toNat ≤ 0x200a)
  || c.toNat == 0x2028 || c.toNat == 0x2029 || c.toNat == 0x202f || c.toNat == 0x205f
  || c.toNat == 0x3000 || c.toNat == 0xfeff

/-- Characters matched by the regex class `[^\s,.]`. -/
def isTokChar (c : Char) : Bool :=
  !jsWS c && !(c == ',') && !(c == '.')

/-- Consume an exact literal word at the head of the text. -/
def dropLit : List Char → List Char → Option (List Char)
  | [], l => some l
  | _ :: _, [] => none
  | a :: as, b :: bs => if b = a then dropLit as bs else none

/-- Consume `\s+` (at least one whitespace character, greedily). -/
def dropWS1 : List Char → Option (List Char)
  | [] => none
  | c :: cs => if jsWS c then some (cs.dropWhile jsWS) else none

/-- Consume `[^\s,.]+` (at least one token character, greedily). -/
def dropTok1 : List Char → Option (List Char)
  | [] => none
  | c :: cs => if isTokChar c then some (cs.dropWhile isTokChar) else none

/-- Match a pattern of the shape `w₁\s+w₂\s+…\s+wₖ\s+[^\s,.]+` at the head
of the text, returning the text after the match. Greedy matching needs no
backtracking here because the word, whitespace and token classes are
disjoint at their boundaries. -/
def matchPat : List (List Char) → List Char → Option (List Char)
  | [], l => dropTok1 l
  | w :: ws, l => do
      let l1 ← dropLit w l
      let l2 ← dropWS1 l1
      matchPat ws l2

/-- Fuel-indexed global regex substitution: scan left to right, replacing
every match and resuming after it, exactly as `String.replace` with a `/g`
regex. Every match consumes at least one character, so fuel equal to the
input length always suffices and the fuel-exhausted branch is unreachable. -/
def replacePatAux (ws : List (List Char)) (rep : List Char) : Nat → List Char → List Char
  | _, [] => []
  | 0, l => l
  | fuel + 1, c :: cs =>
      match matchPat ws (c :: cs) with
      | some rest => rep ++ replacePatAux ws rep fuel rest
      | none => c :: replacePatAux ws rep fuel cs

/-- Global substitution of one pattern (`text.replace(/pat/g, rep)`). -/
def replaceAll (ws : List (List Char)) (rep : List Char) (l : List Char) : List Char :=
  replacePatAux ws rep l.length l

/-- Substring test (`String.prototype.includes` for a non-empty needle). -/
def containsSub : List Char → List Char → Bool
  | p, [] => p.isEmpty
  | p, c :: cs => p.isPrefixOf (c :: cs) || containsSub p cs

/-- Number of positions at which a pattern occurs. -/
def countSub : List Char → List Char → Nat
  | _, [] => 0
  | p, c :: cs => (if p.isPrefixOf (c :: cs) then 1 else 0) + countSub p cs

/-- The Completion blank marker `_____` (five underscores). -/
def marker : List Char := "_____".data

/-- `text.replace(/\?$/, ' _____?')`: a trailing question mark is replaced
by ` _____?`. -/
def replaceQMark (l : List Char) : List Char :=
  match l.getLast? with
  | some '?' => l.dropLast ++ " _____?".data
  | _ => l

/-- The Completion auto-fix of `validateAndFormatQuestions`: four global
regex substitutions applied in sequence, then the question-mark rule, then
appending ` _____` as a last resort. -/
def fixCompletion (s : List Char) : List Char :=
  let f1 := replaceAll ["là".data] "là _____".data s
  let f2 := replaceAll ["bằng".data] "bằng _____".data f1
  let f3 := replaceAll ["có".data] "có _____".data f2
  let f4 := replaceAll ["được".data, "gọi".data, "là".data] "được gọi là _____".data f3
  if containsSub marker f4 then f4
  else
    let g := replaceQMark f4
    if containsSub marker g then g else g ++ " _____".data

/-- The TRUE_FALSE answer rule: keep the supplied list when its first entry
is the string `True` or `False`, otherwise default to `['True']`. -/
def tfFix (fca : List JVal) : List JVal :=
  if ["True", "False"].any (fun s => jstrEq (fca.headD (JVal.str "")) s) then fca
  else [JVal.str "True"]

/-- The MULTIPLE_RESPONSE answer repair: below two answers, append the
first label of `['A','B','C','D']` not already present (when exactly one
answer was supplied), fall back to `['A','B']` when still short, and keep
only the first three answers when more than three were supplied. -/
def mrFix (fca : List JVal) : List JVal :=
  let a1 :=
    if fca.length < 2 then
      let a2 :=
        if fca.length = 1 then
          match ["A", "B", "C", "D"].filter (fun l => !(fca.any (fun v => jstrEq v l))) with
          | [] => fca
          | l :: _ => fca ++ [JVal.str l]
        else fca
      if a2.length < 2 then [JVal.str "A", JVal.str "B"] else a2
    else fca
  if a1.length > 3 then a1.take 3 else a1

/-- First unused label of the canonical pool `['A','B','C','D']`, in pool
(lexicographic) order. -/
def lexFirstUnused (ans : List JVal) : Option String :=
  (["A", "B", "C", "D"].filter (fun l => !(ans.any (fun v => jstrEq v l)))).head?

/-- The per-type `switch` of `validateAndFormatQuestions`, building the
returned question object from the guarded raw question and the validated
choices. -/
def buildQuestion (t : QuestionType) (q : JVal) (formattedChoices : List ChoiceItem) :
    GeneratedQuestion :=
  match t with
  | .TRUE_FALSE =>
      { question := rawQuestionText q
      , choices := [⟨"True", "Đúng"⟩, ⟨"False", "Sai"⟩]
      , correctAnswers := tfFix (suppliedAnswers q)
      , explanation := rawExplanation q
      , type := t }
  | .MULTIPLE_CHOICE =>
      { question := rawQuestionText q
      , choices := formattedChoices
      , correctAnswers := [(suppliedAnswers q).headD (JVal.str "A")]
      , explanation := rawExplanation q
      , type := t }
  | .MULTIPLE_RESPONSE =>
      { question := rawQuestionText q
      , choices := formattedChoices
      , correctAnswers := mrFix (suppliedAnswers q)
      , explanation := rawExplanation q
      , type := t }
  | .MATCHING =>
      { question := rawQuestionText q
      , choices := formattedChoices
      , correctAnswers := formattedChoices.map (fun c => JVal.str c.label)
      , explanation := rawExplanation q
      , type := t }
  | .COMPLETION =>
      { question :=
          if containsSub marker (rawQuestionText q) then rawQuestionText q
          else fixCompletion (rawQuestionText q)
      , choices := formattedChoices
      , correctAnswers := [(suppliedAnswers q).headD (JVal.str "A")]
      , explanation := rawExplanation q
      , type := t }

/-- Validation of one raw question at a given index: throw on a failed
structural guard, validate the choices, then build the typed question. -/
def formatOne (t : QuestionType) (i : Nat) (q : JVal) : Except String GeneratedQuestion :=
  if isValidQuestionStructure q then
    match validateChoices (rawChoices q) with
    | .error e => .error e
    | .ok fcs => .ok (buildQuestion t q fcs)
  else .error ("Invalid question structure at index " ++ toString i)

/-- Index-carrying loop of `validateAndFormatQuestions`. -/
def vafAux (t : QuestionType) : Nat → List JVal → Except String (List GeneratedQuestion)
  | _, [] => .ok []
  | i, q :: qs =>
      match formatOne t i q with
      | .error e => .error e
      | .ok g =>
          match vafAux t (i + 1) qs with
          | .error e => .error e
          | .ok rest => .ok (g :: rest)

/-- `OpenAIService.validateAndFormatQuestions`. -/
def validateAndFormatQuestions (questions : List JVal) (t : QuestionType) :
    Except String (List GeneratedQuestion) :=
  vafAux t 0 questions

/-- The `while` loop of the aggregator's MULTIPLE_RESPONSE fix: shift
labels off the available pool onto the answers while fewer than two. -/
def aggMRWhile (ans : List JVal) (avail : List String) : List JVal :=
  match avail with
  | [] => ans
  | l :: rest => if ans.length < 2 then aggMRWhile (ans ++ [JVal.str l]) rest else ans

/-- The aggregator's MULTIPLE_RESPONSE answer fix (src/unnamed/part_002). -/
def aggMRFix (ans : List JVal) : List JVal :=
  let avail := ["A", "B", "C", "D"].filter (fun l => !(ans.any (fun v => jstrEq v l)))
  let r := aggMRWhile ans avail
  if r.length < 2 then [JVal.str "A", JVal.str "B"] else r

/-- The aggregator's COMPLETION fix: only the first three patterns, then
the same question-mark and append fallbacks. -/
def aggCompletionFix (s : List Char) : List Char :=
  let f1 := replaceAll ["là".data] "là _____".data s
  let f2 := replaceAll ["bằng".data] "bằng _____".data f1
  let f3 := replaceAll ["có".data] "có _____".data f2
  if containsSub marker f3 then f3
  else
    let g := replaceQMark f3
    if containsSub marker g then g else g ++ " _____".data

/-- The aggregator's post-merge repair pass applied to each merged
question (`validatedQuestions` in `generateMultipleQuestions`). -/
def aggFix (q : GeneratedQuestion) : GeneratedQuestion :=
  let q1 :=
    if q.type = .MULTIPLE_RESPONSE ∧ q.correctAnswers.length < 2 then
      { q with correctAnswers := aggMRFix q.correctAnswers }
    else q
  if q1.type = .COMPLETION ∧ ¬ containsSub marker q1.question = true then
    { q1 with question := aggCompletionFix q1.question }
  else q1

/-- `Math.ceil(a / b)` on non-negative integers. -/
def ceilDiv (a b : Nat) : Nat := (a + b - 1) / b

/-- The per-type generation loop: one single-type pipeline invocation per
entry of `questionTypes`, in order, failing the whole call on the first
failure. The external model call is the `oracle`, giving the decoded
`questions` array for a question type and per-type count. -/
def pipelineAll (oracle : QuestionType → Nat → List JVal) (quota : Nat) :
    List QuestionType → Except String (List (List GeneratedQuestion))
  | [] => .ok []
  | t :: ts =>
      match validateAndFormatQuestions (oracle t quota) t with
      | .error e => .error e
      | .ok out =>
          match pipelineAll oracle quota ts with
          | .error e => .error e
          | .ok rest => .ok (out :: rest)

/-- `QuestionsService.generateMultipleQuestions` (generation and merge
part): per-type quota, one pipeline call per requested type entry,
concatenation, the post-merge repair pass, and truncation to the
requested count. -/
def generateMultipleQuestions (oracle : QuestionType → Nat → List JVal)
    (questionTypes : List QuestionType) (questionCount : Nat) :
    Except String (List GeneratedQuestion) :=
  let questionsPerType := ceilDiv questionCount questionTypes.length
  match pipelineAll oracle questionsPerType questionTypes with
  | .error e => .error e
  | .ok results =>
      let allQuestions := results.flatten
      let validated := allQuestions.map aggFix
      .ok (validated.take questionCount)

/-- One pass of `text.replace(/\s+/g, ' ')`: every maximal whitespace run
becomes a single space. The flag records whether the scanner is inside a
run whose space was already emitted. -/
def collapseWSA : Bool → List Char → List Char
  | _, [] => []
  | inRun, c :: cs =>
      if jsWS c then (if inRun then [] else [' ']) ++ collapseWSA true cs
      else c :: collapseWSA false cs

/-- `text.replace(/\s+/g, ' ')`. -/
def collapseWS (l : List Char) : List Char := collapseWSA false l

/-- Suffix of the text after the last line break of its leading whitespace
run (where scanning resumes after a `/\n\s*\n/` match). -/
def dropAfterLastNL (cs : List Char) : List Char :=
  let run := cs.takeWhile jsWS
  let rest := cs.drop run.length
  (run.reverse.takeWhile (fun c => !(c == '\n'))).reverse ++ rest

/-- Fuel-indexed scanner for `text.replace(/\n\s*\n/g, '\n')`: at a line
break whose following whitespace run contains another line break, the
match extends to the last such line break (greedy `\s*` with the final
`\n` backtracked to the last one) and is replaced by one line break. -/
def blankCollapseF : Nat → List Char → List Char
  | _, [] => []
  | 0, l => l
  | fuel + 1, c :: cs =>
      if c = '\n' then
        if (cs.takeWhile jsWS).contains '\n' then
          '\n' :: blankCollapseF fuel (dropAfterLastNL cs)
        else '\n' :: blankCollapseF fuel cs
      else c :: blankCollapseF fuel cs

/-- `text.replace(/\n\s*\n/g, '\n')`. -/
def blankCollapse (l : List Char) : List Char := blankCollapseF l.length l

/-- `String.prototype.trim`. -/
def jsTrim (l : List Char) : List Char :=
  ((l.dropWhile jsWS).reverse.dropWhile jsWS).reverse

/-- The normalization step of `sanitizeText` (before truncation). -/
def normalizeStep (l : List Char) : List Char :=
  jsTrim (blankCollapse (collapseWS l))

/-- Does the text contain a line break? -/
def hasNL (l : List Char) : Bool := l.any (fun c => c == '\n')

/-- The 10,000 character cap of `truncateText`. -/
def MAXCHARS : Nat := 10000

/-- The sentence-ending delimiters searched by `truncateText`. -/
def sentenceEndings : List (List Char) :=
  [['.', ' '], ['.', '\n'], ['!', ' '], ['!', '\n'], ['?', ' '], ['?', '\n']]

/-- The paragraph-break patterns of the fallback search. -/
def paragraphBreaks : List (List Char) := [['\n', '\n'], ['\n', ' ']]

/-- Left-to-right scan computing `String.prototype.lastIndexOf`: remember
the last position at which the pattern occurs. -/
def lastIdxAux (pat : List Char) : List Char → Nat → Option Nat → Option Nat
  | [], _, best => best
  | c :: cs, p, best =>
      lastIdxAux pat cs (p + 1) (if pat.isPrefixOf (c :: cs) then some p else best)

/-- `text.lastIndexOf(pat)` with the JavaScript `-1` convention. -/
def jsLastIndexOf (pat l : List Char) : Int :=
  match lastIdxAux pat l 0 none with
  | some i => (i : Int)
  | none => -1

/-- One step of the search loop of `truncateText`: keep the larger of the
accumulator and this pattern's `lastIndexOf` result. -/
def lastEndFoldF (w : List Char) (acc : Int) (e : List Char) : Int :=
  let idx := jsLastIndexOf e w
  if idx > acc then idx else acc

/-- The search loop of `truncateText`: fold the per-pattern `lastIndexOf`
results, keeping the largest index (initially `-1`). -/
def lastEndIn (pats : List (List Char)) (w : List Char) : Int :=
  pats.foldl (lastEndFoldF w) (-1)

/-- Result record of `truncateText`. -/
structure TruncOutcome where
  text : List Char
  wasTruncated : Bool
deriving DecidableEq

/-- The trailing 20% window of the truncated prefix that `truncateText`
searches (`searchText`). -/
def truncWindow (text : List Char) : List Char :=
  (text.take MAXCHARS).drop (MAXCHARS - MAXCHARS / 5)

/-- Does any sentence-ending delimiter occur at position `q` of the window? -/
def delimAt (w : List Char) (q : Nat) : Bool :=
  sentenceEndings.any (fun e => e.isPrefixOf (w.drop q))

/-- `FileProcessingService.truncateText`. `Math.floor(MAX_CHARS * 0.2)` is
exactly `MAXCHARS / 5`, and `Math.max(0, …)` is vacuous at these values. -/
def truncateText (text : List Char) : TruncOutcome :=
  if text.length ≤ MAXCHARS then ⟨text, false⟩
  else
    let truncated := text.take MAXCHARS
    let searchStart := MAXCHARS - MAXCHARS / 5
    let searchText := truncated.drop searchStart
    let lastSentenceEnd := lastEndIn sentenceEndings searchText
    if lastSentenceEnd > -1 then
      ⟨jsTrim (truncated.take (searchStart + lastSentenceEnd.toNat + 1)), true⟩
    else
      let lastParagraphEnd := lastEndIn paragraphBreaks searchText
      if lastParagraphEnd > -1 then
        ⟨jsTrim (truncated.take (searchStart + lastParagraphEnd.toNat)), true⟩
      else ⟨jsTrim truncated, true⟩

/-- Result record of `sanitizeText`. -/
structure SanitizeOutcome where
  text : List Char
  wasTruncated : Bool
  originalLength : Nat
  truncatedLength : Nat
deriving DecidableEq

/-- `FileProcessingService.sanitizeText`. -/
def sanitizeText (s : List Char) : SanitizeOutcome :=
  let sanitized := normalizeStep s
  let originalLength := sanitized.length
  let result := truncateText sanitized
  ⟨result.text, result.wasTruncated, originalLength, result.text.length⟩

/-- The default JavaScript array sort on string arrays (ascending
lexicographic comparison). -/
def sortJS (l : List String) : List String := l.insertionSort (· ≤ ·)

/-- The correctness judgment of `PracticeService.submitAnswer`: sort the
stored correct labels and the submitted labels and compare. -/
def judgeAnswer (correctLabels selectedLabels : List String) : Bool :=
  sortJS correctLabels == sortJS selectedLabels

/-- Does every correct answer occur among the labels of the question's
choices (as a string)? -/
def answersSubsetLabels (g : GeneratedQuestion) : Bool :=
  g.correctAnswers.all (fun a => g.choices.any (fun c => jstrEq a c.label))

/-! Concrete inputs and expected outputs used by counterexamples and
witnesses. -/

/-- A TrueFalse raw question whose model supplied both `True` and `False`
as correct answers. -/
def c1CexRaw : JVal := JVal.obj
  [("question", JVal.str "Q"), ("choices", JVal.arr []),
   ("correctAnswers", JVal.arr [JVal.str "True", JVal.str "False"])]

/-- The normalized output for `c1CexRaw`: both answers survive. -/
def c1CexOut : GeneratedQuestion :=
  { question := "Q".data
  , choices := [⟨"True", "Đúng"⟩, ⟨"False", "Sai"⟩]
  , correctAnswers := [JVal.str "True", JVal.str "False"]
  , explanation := JVal.str ""
  , type := .TRUE_FALSE }

/-- A TrueFalse raw question supplying the single answer `False`. -/
def c1WitRaw : JVal := JVal.obj
  [("question", JVal.str "Q"), ("choices", JVal.arr []),
   ("correctAnswers", JVal.arr [JVal.str "False"])]

/-- The normalized output for `c1WitRaw`. -/
def c1WitOut : GeneratedQuestion :=
  { question := "Q".data
  , choices := [⟨"True", "Đúng"⟩, ⟨"False", "Sai"⟩]
  , correctAnswers := [JVal.str "False"]
  , explanation := JVal.str ""
  , type := .TRUE_FALSE }

/-- A Completion raw question with two distinct substitution patterns in
its text and no blank marker. -/
def c2CexRaw : JVal := JVal.obj
  [("question", JVal.str "A là B bằng C"), ("choices", JVal.arr []),
   ("correctAnswers", JVal.arr [JVal.str "A"])]

/-- The normalized output for `c2CexRaw`: both patterns were substituted. -/
def c2CexOut : GeneratedQuestion :=
  { question := "A là _____ bằng _____".data
  , choices := []
  , correctAnswers := [JVal.str "A"]
  , explanation := JVal.str ""
  , type := .COMPLETION }

/-- The Completion raw question of the spec's sample, lacking the marker. -/
def c2SampleRaw : JVal := JVal.obj
  [("question", JVal.str "Thủ đô của Việt Nam là Hà Nội."), ("choices", JVal.arr []),
   ("correctAnswers", JVal.arr [JVal.str "B"])]

/-- The normalized output for `c2SampleRaw`. -/
def c2SampleOut : GeneratedQuestion :=
  { question := "Thủ đô của Việt Nam là _____ Nội.".data
  , choices := []
  , correctAnswers := [JVal.str "B"]
  , explanation := JVal.str ""
  , type := .COMPLETION }

/-- A choices entry whose `label` is a boolean. -/
def c3CexChoices : List JVal :=
  [JVal.obj [("label", JVal.bool true), ("content", JVal.str "x")]]

/-- A choices list with a numeric label followed by a non-object entry. -/
def c3WitChoices : List JVal :=
  [JVal.obj [("label", JVal.num (-7)), ("content", JVal.str "y")], JVal.bool true]

/-- A MultipleChoice raw question whose supplied answer `Z` is not among
its choice labels. -/
def c4CexRaw : JVal := JVal.obj
  [("question", JVal.str "Q"),
   ("choices", JVal.arr [JVal.obj [("label", JVal.str "A"), ("content", JVal.str "x")]]),
   ("correctAnswers", JVal.arr [JVal.str "Z"])]

/-- The normalized output for `c4CexRaw`: the answer `Z` survives although
no choice is labelled `Z`. -/
def c4CexOut : GeneratedQuestion :=
  { question := "Q".data
  , choices := [⟨"A", "x"⟩]
  , correctAnswers := [JVal.str "Z"]
  , explanation := JVal.str ""
  , type := .MULTIPLE_CHOICE }

/-- A Matching raw question with two choices. -/
def c4WitRaw : JVal := JVal.obj
  [("question", JVal.str "Q"),
   ("choices", JVal.arr
     [JVal.obj [("label", JVal.str "A"), ("content", JVal.str "x")],
      JVal.obj [("label", JVal.str "B"), ("content", JVal.str "y")]]),
   ("correctAnswers", JVal.arr [JVal.str "Z"])]

/-- The normalized output for `c4WitRaw`. -/
def c4WitOut : GeneratedQuestion :=
  { question := "Q".data
  , choices := [⟨"A", "x"⟩, ⟨"B", "y"⟩]
  , correctAnswers := [JVal.str "A", JVal.str "B"]
  , explanation := JVal.str ""
  , type := .MATCHING }

/-- A MultipleResponse raw question supplying the single answer `A`. -/
def c6WitRaw : JVal := JVal.obj
  [("question", JVal.str "Q"),
   ("choices", JVal.arr
     [JVal.obj [("label", JVal.str "A"), ("content", JVal.str "w")],
      JVal.obj [("label", JVal.str "B"), ("content", JVal.str "x")],
      JVal.obj [("label", JVal.str "C"), ("content", JVal.str "y")],
      JVal.obj [("label", JVal.str "D"), ("content", JVal.str "z")]]),
   ("correctAnswers", JVal.arr [JVal.str "A"])]

/-- The normalized output for `c6WitRaw`: answer `B` was appended. -/
def c6WitOut : GeneratedQuestion :=
  { question := "Q".data
  , choices := [⟨"A", "w"⟩, ⟨"B", "x"⟩, ⟨"C", "y"⟩, ⟨"D", "z"⟩]
  , correctAnswers := [JVal.str "A", JVal.str "B"]
  , explanation := JVal.str ""
  , type := .MULTIPLE_RESPONSE }

/-- A two-question oracle for the aggregator witness: every sub-call
decodes to one MultipleChoice-shaped raw question. -/
def c7WitOracle : QuestionType → Nat → List JVal := fun _ _ =>
  [JVal.obj
    [("question", JVal.str "Q"),
     ("choices", JVal.arr [JVal.obj [("label", JVal.str "A"), ("content", JVal.str "x")]]),
     ("correctAnswers", JVal.arr [JVal.str "A"])]]

/-- The requested types of the aggregator witness. -/
def c7WitTypes : List QuestionType := [.MULTIPLE_CHOICE, .TRUE_FALSE]

/-- The per-type pipeline outputs of the aggregator witness. -/
def c7WitLists : List (List GeneratedQuestion) :=
  [[{ question := "Q".data
    , choices := [⟨"A", "x"⟩]
    , correctAnswers := [JVal.str "A"]
    , explanation := JVal.str ""
    , type := .MULTIPLE_CHOICE }],
   [{ question := "Q".data
    , choices := [⟨"True", "Đúng"⟩, ⟨"False", "Sai"⟩]
    , correctAnswers := [JVal.str "True"]
    , explanation := JVal.str ""
    , type := .TRUE_FALSE }]]

/-- A text of 10,102 characters whose only sentence delimiter sits at
window position 1500 (absolute position 9500) of the truncated prefix. -/
def c8text : List Char :=
  List.replicate 9500 'a' ++ ['.', ' '] ++ List.replicate 600 'b'

/-- The search window of `c8text`: 1500 `a`s, the delimiter, 498 `b`s. -/
def c8window : List Char :=
  List.replicate 1500 'a' ++ ['.', ' '] ++ List.replicate 498 'b'

/-- The raw list for the aggregator-second-pass witness. -/
def c10WitRaw : List JVal :=
  [JVal.obj
    [("question", JVal.str "Q"),
     ("choices", JVal.arr
       [JVal.obj [("label", JVal.str "A"), ("content", JVal.str "w")],
        JVal.obj [("label", JVal.str "B"), ("content", JVal.str "x")]]),
     ("correctAnswers", JVal.arr [JVal.str "A"])]]

/-- The pipeline output for `c10WitRaw` under MultipleResponse. -/
def c10WitOut : List GeneratedQuestion :=
  [{ question := "Q".data
   , choices := [⟨"A", "w"⟩, ⟨"B", "x"⟩]
   , correctAnswers := [JVal.str "A", JVal.str "B"]
   , explanation := JVal.str ""
   , type := .MULTIPLE_RESPONSE }]

/-! Generic helper lemmas. -/

/-- A map whose function fixes every member is the identity. -/
theorem listMapSelf {α : Type} {f : α → α} :
    ∀ {l : List α}, (∀ x ∈ l, f x = x) → l.map f = l := by
  intro l h
  induction l with
  | nil => rfl
  | cons x xs ih =>
      rw [List.map_cons, h x (List.mem_cons_self x xs),
        ih (fun y hy => h y (List.mem_cons_of_mem _ hy))]

/-- A substring of the right part is a substring of the concatenation. -/
theorem containsSub_append_right {p b : List Char} (hb : containsSub p b = true) :
    ∀ a : List Char, containsSub p (a ++ b) = true := by
  intro a
  induction a with
  | nil => simpa using hb
  | cons c cs ih =>
      show (p.isPrefixOf (c :: (cs ++ b)) || containsSub p (cs ++ b)) = true
      rw [ih]
      simp

/-- The Completion auto-fix always leaves a blank marker in the text. -/
theorem fixCompletion_marker (s : List Char) :
    containsSub marker (fixCompletion s) = true := by
  simp only [fixCompletion]
  split
  · assumption
  · split
    · assumption
    · exact containsSub_append_right (by rfl) _

/-! Lemmas about `validateChoices` (claim C3). -/

/-- When every entry passes the object guard, `vcAux` coerces them all. -/
theorem vcAux_ok :
    ∀ (cs : List JVal) (i : Nat), (∀ c ∈ cs, isChoiceObj c = true) →
      vcAux i cs = .ok (cs.map coerceChoice) := by
  intro cs
  induction cs with
  | nil => intro i _; rfl
  | cons c cs ih =>
      intro i h
      have hc : isChoiceObj c = true := h c (List.mem_cons_self c cs)
      have hr := ih (i + 1) (fun y hy => h y (List.mem_cons_of_mem _ hy))
      simp [vcAux, hc, hr]

/-- `vcAux` fails at the first entry failing the object guard, reporting
its index. -/
theorem vcAux_err :
    ∀ (cs : List JVal) (i k : Nat), k < cs.length →
      isChoiceObj (cs.getD k JVal.null) = false →
      (∀ j, j < k → isChoiceObj (cs.getD j JVal.null) = true) →
      vcAux i cs = .error ("Invalid choice structure at index " ++ toString (i + k)) := by
  intro cs
  induction cs with
  | nil => intro i k hk _ _; simp at hk
  | cons c cs ih =>
      intro i k hk hbad hgood
      cases k with
      | zero =>
          have hc : isChoiceObj c = false := by simpa using hbad
          simp [vcAux, hc]
      | succ k' =>
          have hc : isChoiceObj c = true := by simpa using hgood 0 (Nat.succ_pos k')
          have hrec := ih (i + 1) k' (by simpa using hk) (by simpa using hbad)
            (fun j hj => by simpa using hgood (j + 1) (Nat.succ_lt_succ hj))
          have harith : i + 1 + k' = i + (k' + 1) := by omega
          rw [harith] at hrec
          simp [vcAux, hc, hrec]

/-! Lemmas about the text normalization step (claim C5). -/

/-- Every character emitted by the whitespace collapse is either the
single space of a run or a non-whitespace input character. -/
theorem collapseWSA_mem :
    ∀ (l : List Char) (b : Bool) (c : Char), c ∈ collapseWSA b l →
      c = ' ' ∨ jsWS c = false := by
  intro l
  induction l with
  | nil => intro b c hc; simp [collapseWSA] at hc
  | cons a as ih =>
      intro b c hc
      simp only [collapseWSA] at hc
      by_cases ha : jsWS a
      · rw [if_pos ha] at hc
        rcases List.mem_append.mp hc with h | h
        · left
          cases b
          · simpa using h
          · simp at h
        · exact ih true c h
      · rw [if_neg ha] at hc
        rcases List.mem_cons.mp hc with h | h
        · right; rw [h]; simpa using ha
        · exact ih false c h

/-- After the whitespace collapse no line break remains. -/
theorem collapseWS_no_nl {l : List Char} {c : Char} (hc : c ∈ collapseWS l) :
    c ≠ '\n' := by
  rcases collapseWSA_mem l false c hc with h | h
  · rw [h]; decide
  · intro hh
    rw [hh] at h
    simp [jsWS] at h

/-- The blank-line collapse is the identity on texts without line breaks. -/
theorem blankCollapseF_id :
    ∀ (fuel : Nat) (l : List Char), (∀ c ∈ l, c ≠ '\n') →
      blankCollapseF fuel l = l := by
  intro fuel
  induction fuel with
  | zero => intro l _; cases l <;> rfl
  | succ f ih =>
      intro l h
      cases l with
      | nil => rfl
      | cons c cs =>
          have hc : c ≠ '\n' := h c (List.mem_cons_self _ _)
          simp only [blankCollapseF, if_neg hc]
          rw [ih cs (fun x hx => h x (List.mem_cons_of_mem _ hx))]

/-- Trimming only removes characters. -/
theorem jsTrim_subset {x : Char} {m : List Char} (h : x ∈ jsTrim m) : x ∈ m := by
  unfold jsTrim at h
  rw [List.mem_reverse] at h
  have h1 := (List.dropWhile_sublist (l := (m.dropWhile jsWS).reverse) jsWS).subset h
  rw [List.mem_reverse] at h1
  exact (List.dropWhile_sublist (l := m) jsWS).subset h1

/-! Claim theorems C3, C5, C9 and counterexamples. -/

/-- Claim C3, counterexample: a boolean `label` is silently coerced to the
empty string; `validateChoices` succeeds instead of failing with a
`ParseError`. -/
theorem c3_counterexample :
    validateChoices c3CexChoices = .ok [⟨"", "x"⟩]
    ∧ ∀ e, validateChoices c3CexChoices ≠ .error e := by
  constructor
  · rfl
  · intro e h
    rw [show validateChoices c3CexChoices = .ok [⟨"", "x"⟩] from rfl] at h
    exact Except.noConfusion h

/-- Claim C3 (amended): entries that are objects with `label` and
`content` always succeed — strings kept, numbers stringified, and every
other value silently coerced to the empty string — and a `ParseError`
naming the offending index occurs exactly at the first entry that is not
an object with both fields. -/
theorem c3_choice_coercion (cs : List JVal) :
    ((∀ c ∈ cs, isChoiceObj c = true) → validateChoices cs = .ok (cs.map coerceChoice))
    ∧ (∀ k, k < cs.length → isChoiceObj (cs.getD k JVal.null) = false →
        (∀ j, j < k → isChoiceObj (cs.getD j JVal.null) = true) →
        validateChoices cs = .error ("Invalid choice structure at index " ++ toString k)) := by
  constructor
  · intro h
    exact vcAux_ok cs 0 h
  · intro k hk hbad hgood
    have := vcAux_err cs 0 k hk hbad hgood
    simpa using this

/-- Witness for C3: a numeric label is stringified, and the trailing
non-object entry makes the call fail with the index-1 error. -/
theorem c3_witness :
    (validateChoices [JVal.obj [("label", JVal.num (-7)), ("content", JVal.str "y")]]
        = .ok [⟨"-7", "y"⟩])
    ∧ validateChoices c3WitChoices = .error "Invalid choice structure at index 1" := by
  constructor
  · have h := (c3_choice_coercion
      [JVal.obj [("label", JVal.num (-7)), ("content", JVal.str "y")]]).1
      (by intro c hc; rw [List.mem_singleton] at hc; subst hc; rfl)
    simpa using h
  · have h := (c3_choice_coercion c3WitChoices).2 1 (by decide) (by rfl)
      (by intro j hj; interval_cases j; rfl)
    simpa using h

/-- Claim C5, counterexample: two consecutive line breaks do not become a
single line break — the whitespace collapse has already turned them into a
space, so no line break survives at all. -/
theorem c5_counterexample :
    normalizeStep "a\n\nb".data = "a b".data
    ∧ normalizeStep "a\n\nb".data ≠ "a\nb".data := by
  constructor
  · rfl
  · decide

/-- Claim C5 (amended): the normalization step collapses every whitespace
run — line breaks included — to a single space and trims both ends; the
blank-line collapse never fires because the preceding step already removed
all line breaks, so the result never contains a line break. -/
theorem c5_whitespace_normalization (l : List Char) :
    normalizeStep l = jsTrim (collapseWS l)
    ∧ hasNL (normalizeStep l) = false := by
  have hid : blankCollapse (collapseWS l) = collapseWS l := by
    unfold blankCollapse
    exact blankCollapseF_id _ _ (fun c hc => collapseWS_no_nl hc)
  have h1 : normalizeStep l = jsTrim (collapseWS l) := by
    unfold normalizeStep
    rw [hid]
  refine ⟨h1, ?_⟩
  rw [h1]
  unfold hasNL
  rw [List.any_eq_false]
  intro x hx
  have := collapseWS_no_nl (jsTrim_subset hx)
  simp [this]

/-- Claim C9: the correctness judgment of answer submission is true
exactly when the submitted labels are a permutation (same multiset) of the
stored correct labels; hence order never matters, and a different count or
different membership is judged incorrect. -/
theorem c9_scoring_order_independent (correctLabels selectedLabels : List String) :
    judgeAnswer correctLabels selectedLabels = true
      ↔ correctLabels.Perm selectedLabels := by
  unfold judgeAnswer sortJS
  rw [beq_iff_eq]
  constructor
  · intro h
    have p1 := List.perm_insertionSort (α := String) (· ≤ ·) correctLabels
    have p2 := List.perm_insertionSort (α := String) (· ≤ ·) selectedLabels
    exact p1.symm.trans (h ▸ p2)
  · intro h
    refine List.eq_of_perm_of_sorted ?_
      (List.sorted_insertionSort (· ≤ ·) correctLabels)
      (List.sorted_insertionSort (· ≤ ·) selectedLabels)
    exact (List.perm_insertionSort _ _).trans
      (h.trans (List.perm_insertionSort _ _).symm)

/-- Witness for C9: the spec's example — `["B","A"]` against stored
`["A","B"]` is judged correct. -/
theorem c9_witness : judgeAnswer ["A", "B"] ["B", "A"] = true :=
  (c9_scoring_order_independent ["A", "B"] ["B", "A"]).mpr (by decide)

/-! Inversion lemmas for the single-type normalizer. -/

/-- A singleton success of `validateAndFormatQuestions` comes from
`formatOne` at index 0. -/
theorem vaf_singleton {q : JVal} {t : QuestionType} {g : GeneratedQuestion}
    (h : validateAndFormatQuestions [q] t = .ok [g]) : formatOne t 0 q = .ok g := by
  unfold validateAndFormatQuestions vafAux at h
  cases hf : formatOne t 0 q with
  | error e => rw [hf] at h; simp at h
  | ok g' =>
      rw [hf] at h
      simp only [vafAux] at h
      simp at h
      rw [h]

/-- A success of `formatOne` is the built question over the validated
choices. -/
theorem formatOne_ok {t : QuestionType} {i : Nat} {q : JVal} {g : GeneratedQuestion}
    (h : formatOne t i q = .ok g) :
    ∃ fcs, isValidQuestionStructure q = true
      ∧ validateChoices (rawChoices q) = .ok fcs
      ∧ g = buildQuestion t q fcs := by
  unfold formatOne at h
  by_cases hv : isValidQuestionStructure q
  · rw [if_pos hv] at h
    cases hc : validateChoices (rawChoices q) with
    | error e => rw [hc] at h; simp at h
    | ok fcs =>
        rw [hc] at h
        simp at h
        exact ⟨fcs, hv, rfl, h.symm⟩
  · rw [if_neg hv] at h
    simp at h

/-! Lemmas about the MULTIPLE_RESPONSE repair (claims C6, C10). -/

/-- One supplied answer: the canonical pool always has an unused label
(the single value equals at most one of the four), and exactly that label
is appended. -/
theorem mrFix_one (x : JVal) :
    ∃ l, lexFirstUnused [x] = some l ∧ mrFix [x] = [x, JVal.str l] := by
  cases x with
  | str s =>
      by_cases hA : s = "A"
      · exact hA ▸ ⟨"B", rfl, rfl⟩
      by_cases hB : s = "B"
      · exact hB ▸ ⟨"A", rfl, rfl⟩
      by_cases hC : s = "C"
      · exact hC ▸ ⟨"A", rfl, rfl⟩
      by_cases hD : s = "D"
      · exact hD ▸ ⟨"A", rfl, rfl⟩
      have eA : (s == "A") = false := beq_eq_false_iff_ne.mpr hA
      have eB : (s == "B") = false := beq_eq_false_iff_ne.mpr hB
      have eC : (s == "C") = false := beq_eq_false_iff_ne.mpr hC
      have eD : (s == "D") = false := beq_eq_false_iff_ne.mpr hD
      refine ⟨"A", ?_, ?_⟩
      · simp [lexFirstUnused, jstrEq, eA, eB, eC, eD, List.filter]
      · simp [mrFix, jstrEq, eA, eB, eC, eD, List.filter]
  | num n => exact ⟨"A", rfl, rfl⟩
  | bool b => exact ⟨"A", rfl, rfl⟩
  | null => exact ⟨"A", rfl, rfl⟩
  | arr xs => exact ⟨"A", rfl, rfl⟩
  | obj fs => exact ⟨"A", rfl, rfl⟩

/-- The repaired MULTIPLE_RESPONSE answer list always has two or three
entries. -/
theorem mrFix_length (fca : List JVal) :
    2 ≤ (mrFix fca).length ∧ (mrFix fca).length ≤ 3 := by
  match fca with
  | [] =>
      rw [show mrFix [] = [JVal.str "A", JVal.str "B"] from rfl]
      simp
  | [x] =>
      obtain ⟨l, _, hm⟩ := mrFix_one x
      rw [hm]
      simp
  | x :: y :: rest =>
      have hlen : (x :: y :: rest).length = rest.length + 2 := by simp
      have h2 : ¬ (x :: y :: rest).length < 2 := by omega
      simp only [mrFix]
      rw [if_neg h2]
      by_cases h3 : (x :: y :: rest).length > 3
      · rw [if_pos h3]
        rw [List.length_take]
        omega
      · rw [if_neg h3]
        omega

/-- More than three supplied answers: only the first three are kept. -/
theorem mrFix_many (fca : List JVal) (h : 3 < fca.length) : mrFix fca = fca.take 3 := by
  have h2 : ¬ fca.length < 2 := by omega
  simp only [mrFix]
  rw [if_neg h2]
  rw [if_pos (show fca.length > 3 from h)]

/-! Claim theorems C1, C2, C4, C6 and their counterexamples. -/

/-- Claim C1, counterexample: a TrueFalse question whose supplied list is
`["True","False"]` keeps both answers — the normalized question has two
correct answers, not exactly one. -/
theorem c1_counterexample :
    validateAndFormatQuestions [c1CexRaw] .TRUE_FALSE = .ok [c1CexOut]
    ∧ c1CexOut.correctAnswers.length ≠ 1 := by
  constructor
  · rfl
  · decide

/-- Claim C1 (amended): TrueFalse normalization always forces the
canonical `True`/`False` choice pair; only the first supplied answer is
inspected — when it is `"True"` or `"False"` the whole supplied list is
kept unchanged (so extra answers survive), otherwise the answers become
exactly `["True"]`. -/
theorem c1_truefalse_normalization (q : JVal) (g : GeneratedQuestion)
    (h : validateAndFormatQuestions [q] .TRUE_FALSE = .ok [g]) :
    g.choices = [⟨"True", "Đúng"⟩, ⟨"False", "Sai"⟩]
    ∧ g.correctAnswers =
        (if (jstrEq ((suppliedAnswers q).headD (JVal.str "")) "True"
             || jstrEq ((suppliedAnswers q).headD (JVal.str "")) "False") = true
         then suppliedAnswers q else [JVal.str "True"])
    ∧ g.type = .TRUE_FALSE := by
  obtain ⟨fcs, _, _, hg⟩ := formatOne_ok (vaf_singleton h)
  subst hg
  refine ⟨rfl, ?_, rfl⟩
  show tfFix (suppliedAnswers q) = _
  unfold tfFix
  simp only [List.any_cons, List.any_nil, Bool.or_false]

/-- Witness for C1: the supplied single answer `False` survives. -/
theorem c1_witness :
    validateAndFormatQuestions [c1WitRaw] .TRUE_FALSE = .ok [c1WitOut]
    ∧ (c1WitOut.choices = [⟨"True", "Đúng"⟩, ⟨"False", "Sai"⟩]
       ∧ c1WitOut.correctAnswers =
           (if (jstrEq ((suppliedAnswers c1WitRaw).headD (JVal.str "")) "True"
                || jstrEq ((suppliedAnswers c1WitRaw).headD (JVal.str "")) "False") = true
            then suppliedAnswers c1WitRaw else [JVal.str "True"])
       ∧ c1WitOut.type = .TRUE_FALSE) :=
  ⟨rfl, c1_truefalse_normalization c1WitRaw c1WitOut rfl⟩

/-- Claim C2, counterexample: on `"A là B bằng C"` the repair substitutes
both the `là` match and the `bằng` match (each pattern is applied globally
in sequence), not only the first match — the repaired text carries two
blank markers instead of the single one the claim demands. -/
theorem c2_counterexample :
    validateAndFormatQuestions [c2CexRaw] .COMPLETION = .ok [c2CexOut]
    ∧ countSub marker c2CexOut.question = 2
    ∧ c2CexOut.question ≠ "A là _____ bằng C".data := by
  refine ⟨rfl, rfl, ?_⟩
  decide

/-- Claim C2 (amended): the repair applies each of the four patterns as a
global substitution in sequence (every match of every pattern is replaced,
later patterns running on the already-substituted text); on the sample
input `"Thủ đô của Việt Nam là Hà Nội."`, which contains a single match of
a single pattern, the repaired text contains exactly one `"_____"` and no
longer contains the replaced token `"Hà"`. -/
theorem c2_completion_blank :
    validateAndFormatQuestions [c2SampleRaw] .COMPLETION = .ok [c2SampleOut]
    ∧ c2SampleOut.question = "Thủ đô của Việt Nam là _____ Nội.".data
    ∧ countSub marker c2SampleOut.question = 1
    ∧ containsSub "Hà".data c2SampleOut.question = false :=
  ⟨rfl, rfl, rfl, rfl⟩

/-- Claim C4, counterexample: a MultipleChoice question with supplied
answer `Z` and a single choice labelled `A` is normalized with
`correctAnswers = ["Z"]`, which is not among the choice labels, so the
claimed invariant fails. -/
theorem c4_counterexample :
    validateAndFormatQuestions [c4CexRaw] .MULTIPLE_CHOICE = .ok [c4CexOut]
    ∧ answersSubsetLabels c4CexOut = false :=
  ⟨rfl, rfl⟩

/-- Claim C4 (amended): the invariant holds by construction only for
Matching questions, whose correct answers are exactly the choice labels;
for the other types the repair keeps supplied answers, or draws fallback
labels from `{A,B,C,D}`, without checking membership in the choice set. -/
theorem c4_matching_invariant (q : JVal) (g : GeneratedQuestion)
    (h : validateAndFormatQuestions [q] .MATCHING = .ok [g]) :
    answersSubsetLabels g = true
    ∧ g.correctAnswers = g.choices.map (fun c => JVal.str c.label) := by
  obtain ⟨fcs, _, _, hg⟩ := formatOne_ok (vaf_singleton h)
  subst hg
  refine ⟨?_, rfl⟩
  unfold answersSubsetLabels
  rw [List.all_eq_true]
  intro a ha
  show (buildQuestion .MATCHING q fcs).choices.any _ = true
  rw [List.any_eq_true]
  simp only [buildQuestion] at ha ⊢
  obtain ⟨c, hc, rfl⟩ := List.mem_map.mp ha
  exact ⟨c, hc, by simp [jstrEq]⟩

/-- Witness for C4: a Matching question with choices `A`, `B`. -/
theorem c4_witness :
    validateAndFormatQuestions [c4WitRaw] .MATCHING = .ok [c4WitOut]
    ∧ (answersSubsetLabels c4WitOut = true
       ∧ c4WitOut.correctAnswers = c4WitOut.choices.map (fun c => JVal.str c.label)) :=
  ⟨rfl, c4_matching_invariant c4WitRaw c4WitOut rfl⟩

/-- Claim C6: MultipleResponse normalization always produces two or three
correct answers; with no supplied answer the result is exactly
`["A","B"]`; with one supplied answer the first unused label of the pool
`["A","B","C","D"]` (in that lexicographic order) is appended after it;
with more than three supplied answers only the first three are kept. -/
theorem c6_multiple_response_repair (q : JVal) (g : GeneratedQuestion)
    (h : validateAndFormatQuestions [q] .MULTIPLE_RESPONSE = .ok [g]) :
    (2 ≤ g.correctAnswers.length ∧ g.correctAnswers.length ≤ 3)
    ∧ (suppliedAnswers q = [] → g.correctAnswers = [JVal.str "A", JVal.str "B"])
    ∧ (∀ x, suppliedAnswers q = [x] →
        ∃ l, lexFirstUnused [x] = some l ∧ g.correctAnswers = [x, JVal.str l])
    ∧ (3 < (suppliedAnswers q).length →
        g.correctAnswers = (suppliedAnswers q).take 3) := by
  obtain ⟨fcs, _, _, hg⟩ := formatOne_ok (vaf_singleton h)
  subst hg
  have hca : (buildQuestion .MULTIPLE_RESPONSE q fcs).correctAnswers
      = mrFix (suppliedAnswers q) := rfl
  rw [hca]
  refine ⟨mrFix_length _, ?_, ?_, ?_⟩
  · intro he
    rw [he]
    rfl
  · intro x hx
    rw [hx]
    exact mrFix_one x
  · intro h3
    exact mrFix_many _ h3

/-- Witness for C6: supplied `["A"]` with choices `A`–`D` yields exactly
`["A","B"]`. -/
theorem c6_witness :
    validateAndFormatQuestions [c6WitRaw] .MULTIPLE_RESPONSE = .ok [c6WitOut]
    ∧ ((2 ≤ c6WitOut.correctAnswers.length ∧ c6WitOut.correctAnswers.length ≤ 3)
       ∧ (suppliedAnswers c6WitRaw = [] →
            c6WitOut.correctAnswers = [JVal.str "A", JVal.str "B"])
       ∧ (∀ x, suppliedAnswers c6WitRaw = [x] →
            ∃ l, lexFirstUnused [x] = some l ∧ c6WitOut.correctAnswers = [x, JVal.str l])
       ∧ (3 < (suppliedAnswers c6WitRaw).length →
            c6WitOut.correctAnswers = (suppliedAnswers c6WitRaw).take 3)) :=
  ⟨rfl, c6_multiple_response_repair c6WitRaw c6WitOut rfl⟩

/-! The aggregator's second repair pass is vacuous on normalizer output
(claims C7, C10). -/

/-- A question is a fixed point of the aggregator's post-merge repair as
soon as neither of its two conditions fires. -/
theorem aggFix_of_conditions {g : GeneratedQuestion}
    (h1 : ¬ (g.type = .MULTIPLE_RESPONSE ∧ g.correctAnswers.length < 2))
    (h2 : ¬ (g.type = .COMPLETION ∧ ¬ containsSub marker g.question = true)) :
    aggFix g = g := by
  unfold aggFix
  rw [if_neg h1, if_neg h2]

/-- Every question built by the normalizer is a fixed point of the
aggregator's post-merge repair: its type is the requested one, a
MULTIPLE_RESPONSE question already has at least two answers, and a
COMPLETION question already contains the blank marker. -/
theorem aggFix_formatOne {t : QuestionType} {i : Nat} {q : JVal} {g : GeneratedQuestion}
    (h : formatOne t i q = .ok g) : aggFix g = g := by
  obtain ⟨fcs, _, _, hg⟩ := formatOne_ok h
  subst hg
  cases t with
  | TRUE_FALSE =>
      exact aggFix_of_conditions (by simp [buildQuestion]) (by simp [buildQuestion])
  | MULTIPLE_CHOICE =>
      exact aggFix_of_conditions (by simp [buildQuestion]) (by simp [buildQuestion])
  | MATCHING =>
      exact aggFix_of_conditions (by simp [buildQuestion]) (by simp [buildQuestion])
  | MULTIPLE_RESPONSE =>
      have h2 := (mrFix_length (suppliedAnswers q)).1
      refine aggFix_of_conditions ?_ (by simp [buildQuestion])
      intro hx
      have hlt := hx.2
      simp only [buildQuestion] at hlt
      omega
  | COMPLETION =>
      have hq : containsSub marker (buildQuestion .COMPLETION q fcs).question = true := by
        show containsSub marker
          (if containsSub marker (rawQuestionText q) then rawQuestionText q
           else fixCompletion (rawQuestionText q)) = true
        split
        · assumption
        · exact fixCompletion_marker _
      refine aggFix_of_conditions (by simp [buildQuestion]) ?_
      intro hx
      exact absurd hq hx.2

/-- Every question of a successful `vafAux` run comes from `formatOne`. -/
theorem vafAux_mem {t : QuestionType} :
    ∀ (qs : List JVal) (i : Nat) (out : List GeneratedQuestion),
      vafAux t i qs = .ok out → ∀ g ∈ out, ∃ j q, formatOne t j q = .ok g := by
  intro qs
  induction qs with
  | nil =>
      intro i out h g hg
      simp only [vafAux] at h
      simp at h
      subst h
      simp at hg
  | cons q qs ih =>
      intro i out h g hg
      unfold vafAux at h
      cases hf : formatOne t i q with
      | error e => rw [hf] at h; simp at h
      | ok g0 =>
          rw [hf] at h
          cases hr : vafAux t (i + 1) qs with
          | error e => rw [hr] at h; simp at h
          | ok rest =>
              rw [hr] at h
              simp at h
              subst h
              rcases List.mem_cons.mp hg with hg | hg
              · exact ⟨i, q, by rw [hg]; exact hf⟩
              · exact ih (i + 1) rest hr g hg

/-- Every per-type list of a successful `pipelineAll` run is a successful
output of the single-type pipeline. -/
theorem pipelineAll_mem {oracle : QuestionType → Nat → List JVal} {quota : Nat} :
    ∀ (ts : List QuestionType) (ls : List (List GeneratedQuestion)),
      pipelineAll oracle quota ts = .ok ls →
      ∀ out ∈ ls, ∃ t, validateAndFormatQuestions (oracle t quota) t = .ok out := by
  intro ts
  induction ts with
  | nil =>
      intro ls h out hout
      simp only [pipelineAll] at h
      simp at h
      subst h
      simp at hout
  | cons t ts ih =>
      intro ls h out hout
      unfold pipelineAll at h
      cases hf : validateAndFormatQuestions (oracle t quota) t with
      | error e => rw [hf] at h; simp at h
      | ok out0 =>
          rw [hf] at h
          cases hr : pipelineAll oracle quota ts with
          | error e => rw [hr] at h; simp at h
          | ok rest =>
              rw [hr] at h
              simp at h
              subst h
              rcases List.mem_cons.mp hout with hout | hout
              · exact ⟨t, by rw [hout]; exact hf⟩
              · exact ih rest hr out hout

/-- Claim C10: the aggregator's own second repair pass (its
MULTIPLE_RESPONSE answer-count fix and COMPLETION blank-marker fix) is a
no-op on every output of `validateAndFormatQuestions` — mapping it over a
successful normalizer output returns the list unchanged. -/
theorem c10_second_pass_noop (raw : List JVal) (t : QuestionType)
    (out : List GeneratedQuestion)
    (h : validateAndFormatQuestions raw t = .ok out) : out.map aggFix = out := by
  apply listMapSelf
  intro g hg
  obtain ⟨j, q, hf⟩ := vafAux_mem raw 0 out h g hg
  exact aggFix_formatOne hf

/-- Witness for C10: a MULTIPLE_RESPONSE output (already repaired to two
answers by the pipeline) passes the second pass unchanged. -/
theorem c10_witness :
    validateAndFormatQuestions c10WitRaw .MULTIPLE_RESPONSE = .ok c10WitOut
    ∧ c10WitOut.map aggFix = c10WitOut :=
  ⟨rfl, c10_second_pass_noop c10WitRaw .MULTIPLE_RESPONSE c10WitOut rfl⟩

/-- Claim C7: with the per-type quota `⌈questionCount / types⌉`, when
every per-entry single-type pipeline call succeeds (duplicates invoked
once per entry, each at the same quota), the aggregator returns exactly
the first `questionCount` items of the concatenation of the per-type
results in request order. -/
theorem c7_aggregation (oracle : QuestionType → Nat → List JVal)
    (questionTypes : List QuestionType) (questionCount quota : Nat)
    (ls : List (List GeneratedQuestion))
    (hq : quota = ceilDiv questionCount questionTypes.length)
    (h : pipelineAll oracle quota questionTypes = .ok ls) :
    generateMultipleQuestions oracle questionTypes questionCount
      = .ok (ls.flatten.take questionCount) := by
  subst hq
  have hmap : ls.flatten.map aggFix = ls.flatten := by
    apply listMapSelf
    intro g hg
    obtain ⟨outl, houtl, hgin⟩ := List.mem_flatten.mp hg
    obtain ⟨t, ht⟩ := pipelineAll_mem questionTypes ls h outl houtl
    obtain ⟨j, q, hf⟩ := vafAux_mem (oracle t _) 0 outl ht g hgin
    exact aggFix_formatOne hf
  simp only [generateMultipleQuestions]
  rw [h]
  show Except.ok ((ls.flatten.map aggFix).take questionCount)
      = Except.ok (ls.flatten.take questionCount)
  rw [hmap]

/-- Witness for C7: two requested types, quota `⌈3/2⌉ = 2`, each sub-call
yielding one question; the aggregator returns the two-question
concatenation (take 3 of 2 items). -/
theorem c7_witness :
    (2 = ceilDiv 3 c7WitTypes.length
     ∧ pipelineAll c7WitOracle 2 c7WitTypes = .ok c7WitLists)
    ∧ generateMultipleQuestions c7WitOracle c7WitTypes 3
        = .ok (c7WitLists.flatten.take 3) :=
  ⟨⟨rfl, rfl⟩, c7_aggregation c7WitOracle c7WitTypes 3 2 c7WitLists rfl rfl⟩

/-! Correctness of the `lastIndexOf` scan and its fold (claim C8). -/

/-- A non-empty pattern is no prefix of the empty text. -/
theorem isPrefixOf_nil_false {pat : List Char} (h : pat ≠ []) :
    pat.isPrefixOf ([] : List Char) = false := by
  cases pat with
  | nil => exact absurd rfl h
  | cons a as => rfl

/-- An occurrence position of a non-empty pattern is inside the text. -/
theorem occ_lt_length {pat : List Char} (hne : pat ≠ []) {w : List Char} {r : Nat}
    (h : pat.isPrefixOf (w.drop r) = true) : r < w.length := by
  by_contra hge
  push_neg at hge
  rw [List.drop_eq_nil_of_le hge, isPrefixOf_nil_false hne] at h
  simp at h

/-- Without any occurrence the scan returns its accumulator. -/
theorem lastIdxAux_no_occ (pat : List Char) :
    ∀ (l : List Char) (k : Nat) (b : Option Nat),
      (∀ q, pat.isPrefixOf (l.drop q) = false) → lastIdxAux pat l k b = b := by
  intro l
  induction l with
  | nil => intro k b _; rfl
  | cons c cs ih =>
      intro k b h
      have h0 : pat.isPrefixOf (c :: cs) = false := by simpa using h 0
      simp only [lastIdxAux, h0]
      simp only [Bool.false_eq_true, if_false]
      exact ih (k + 1) b (fun q => by simpa using h (q + 1))

/-- With a last occurrence at `p` the scan returns `k + p`. -/
theorem lastIdxAux_max_occ (pat : List Char) (hne : pat ≠ []) :
    ∀ (l : List Char) (p k : Nat) (b : Option Nat),
      pat.isPrefixOf (l.drop p) = true →
      (∀ q, pat.isPrefixOf (l.drop q) = true → q ≤ p) →
      lastIdxAux pat l k b = some (k + p) := by
  intro l
  induction l with
  | nil =>
      intro p k b hp _
      rw [List.drop_nil, isPrefixOf_nil_false hne] at hp
      simp at hp
  | cons c cs ih =>
      intro p k b hp hmax
      cases p with
      | zero =>
          have hpre : pat.isPrefixOf (c :: cs) = true := by simpa using hp
          have hno : ∀ q, pat.isPrefixOf (cs.drop q) = false := by
            intro q
            cases hb : pat.isPrefixOf (cs.drop q) with
            | false => rfl
            | true =>
                have := hmax (q + 1) (by simpa using hb)
                omega
          simp only [lastIdxAux, hpre, if_true]
          rw [lastIdxAux_no_occ pat cs (k + 1) (some k) hno]
          simp
      | succ p' =>
          have hcs : pat.isPrefixOf (cs.drop p') = true := by simpa using hp
          have hmax' : ∀ q, pat.isPrefixOf (cs.drop q) = true → q ≤ p' := by
            intro q hq
            have := hmax (q + 1) (by simpa using hq)
            omega
          simp only [lastIdxAux]
          rw [ih p' (k + 1) _ hcs hmax']
          congr 1
          omega

/-- When the pattern occurs at all, `lastIndexOf` returns the greatest
occurrence position. -/
theorem jsLastIndexOf_of_occ (pat : List Char) (hne : pat ≠ []) (w : List Char)
    (q0 : Nat) (hq0 : pat.isPrefixOf (w.drop q0) = true) :
    ∃ p0 : Nat, jsLastIndexOf pat w = (p0 : Int)
      ∧ pat.isPrefixOf (w.drop p0) = true
      ∧ ∀ r, pat.isPrefixOf (w.drop r) = true → r ≤ p0 := by
  have hq0b : q0 ≤ w.length := le_of_lt (occ_lt_length hne hq0)
  have hp0 : pat.isPrefixOf
      (w.drop (Nat.findGreatest (fun q => pat.isPrefixOf (w.drop q) = true) w.length)) = true :=
    @Nat.findGreatest_spec q0 (fun q => pat.isPrefixOf (w.drop q) = true) _ w.length hq0b hq0
  have hmax : ∀ r, pat.isPrefixOf (w.drop r) = true →
      r ≤ Nat.findGreatest (fun q => pat.isPrefixOf (w.drop q) = true) w.length := by
    intro r hr
    by_contra hlt
    push_neg at hlt
    exact (Nat.findGreatest_is_greatest hlt (le_of_lt (occ_lt_length hne hr))) hr
  refine ⟨_, ?_, hp0, hmax⟩
  unfold jsLastIndexOf
  rw [lastIdxAux_max_occ pat hne w _ 0 none hp0 hmax]
  simp

/-- Characterization of a non-negative `lastIndexOf` result. -/
theorem jsLastIndexOf_spec (pat : List Char) (hne : pat ≠ []) (w : List Char) (p : Nat)
    (h : jsLastIndexOf pat w = (p : Int)) :
    pat.isPrefixOf (w.drop p) = true
    ∧ ∀ q, pat.isPrefixOf (w.drop q) = true → q ≤ p := by
  by_cases hocc : ∃ q, pat.isPrefixOf (w.drop q) = true
  · obtain ⟨q0, hq0⟩ := hocc
    obtain ⟨p0, hjs, hp0, hmax⟩ := jsLastIndexOf_of_occ pat hne w q0 hq0
    rw [hjs] at h
    have hpp : p0 = p := by omega
    subst hpp

    exact ⟨hp0, hmax⟩
  · push_neg at hocc
    have hall : ∀ q, pat.isPrefixOf (w.drop q) = false := by
      intro q
      cases hb : pat.isPrefixOf (w.drop q) with
      | false => rfl
      | true => exact absurd hb (hocc q)
    have : jsLastIndexOf pat w = -1 := by
      unfold jsLastIndexOf
      rw [lastIdxAux_no_occ pat w 0 none hall]
    rw [this] at h
    omega

/-- The fold step never decreases the accumulator. -/
theorem lastEndFoldF_le (w : List Char) (acc : Int) (e : List Char) :
    acc ≤ lastEndFoldF w acc e := by
  simp only [lastEndFoldF]
  split <;> omega

/-- The fold never decreases its initial accumulator. -/
theorem foldl_lastEnd_le (w : List Char) :
    ∀ (pats : List (List Char)) (acc : Int),
      acc ≤ pats.foldl (lastEndFoldF w) acc := by
  intro pats
  induction pats with
  | nil => intro acc; simp
  | cons e ps ih =>
      intro acc
      rw [List.foldl_cons]
      exact le_trans (lastEndFoldF_le w acc e) (ih _)

/-- The fold result is the accumulator or one pattern's `lastIndexOf`. -/
theorem foldl_lastEnd_cases (w : List Char) :
    ∀ (pats : List (List Char)) (acc : Int),
      pats.foldl (lastEndFoldF w) acc = acc
      ∨ ∃ e ∈ pats, pats.foldl (lastEndFoldF w) acc = jsLastIndexOf e w := by
  intro pats
  induction pats with
  | nil => intro acc; left; rfl
  | cons e ps ih =>
      intro acc
      rcases ih (lastEndFoldF w acc e) with h | ⟨e', he', h⟩
      · rw [List.foldl_cons, h]
        simp only [lastEndFoldF]
        split
        · right
          exact ⟨e, List.mem_cons_self _ _, rfl⟩
        · left
          rfl
      · right
        exact ⟨e', List.mem_cons_of_mem _ he', by rw [List.foldl_cons, h]⟩

/-- Every listed pattern's `lastIndexOf` is bounded by the fold result. -/
theorem foldl_lastEnd_ge (w : List Char) :
    ∀ (pats : List (List Char)) (acc : Int) (e : List Char), e ∈ pats →
      jsLastIndexOf e w ≤ pats.foldl (lastEndFoldF w) acc := by
  intro pats
  induction pats with
  | nil => intro acc e he; simp at he
  | cons e0 ps ih =>
      intro acc e he
      rcases List.mem_cons.mp he with he | he
      · subst he
        rw [List.foldl_cons]
        have h1 : jsLastIndexOf e w ≤ lastEndFoldF w acc e := by
          simp only [lastEndFoldF]
          split <;> omega
        exact le_trans h1 (foldl_lastEnd_le w ps _)
      · rw [List.foldl_cons]
        exact ih _ e he

/-- A non-negative search-loop result is the greatest position at which
any of the listed patterns occurs. -/
theorem lastEndIn_spec (pats : List (List Char)) (hne : ∀ e ∈ pats, e ≠ [])
    (w : List Char) (p : Nat) (h : lastEndIn pats w = (p : Int)) :
    pats.any (fun e => e.isPrefixOf (w.drop p)) = true
    ∧ ∀ q, pats.any (fun e => e.isPrefixOf (w.drop q)) = true → q ≤ p := by
  unfold lastEndIn at h
  rcases foldl_lastEnd_cases w pats (-1) with hc | ⟨e, he, hc⟩
  · rw [hc] at h
    omega
  · rw [hc] at h
    obtain ⟨hp, _⟩ := jsLastIndexOf_spec e (hne e he) w p h
    constructor
    · exact List.any_eq_true.mpr ⟨e, he, hp⟩
    · intro q hq
      obtain ⟨e', he', hq'⟩ := List.any_eq_true.mp hq
      obtain ⟨p0, hjs, _, hmax'⟩ := jsLastIndexOf_of_occ e' (hne e' he') w q hq'
      have hle : jsLastIndexOf e' w ≤ (p : Int) := by
        have h0 := foldl_lastEnd_ge w pats (-1) e' he'
        rw [hc, h] at h0
        exact h0
      rw [hjs] at hle
      have hq0 := hmax' q hq'
      omega

/-! Positional list lemmas used by the truncation-boundary claim. -/

/-- The head of a non-empty drop is the element at that position. -/
theorem getElem?_of_drop_cons {w : List Char} {p : Nat} {a : Char} {rest : List Char}
    (h : w.drop p = a :: rest) : w[p]? = some a := by
  have h0 := List.getElem?_drop w p 0
  rw [h] at h0
  simpa using h0.symm

/-- The last element of `take (n+1)` is the element at position `n`. -/
theorem getLast?_take_succ {l : List Char} {n : Nat} {c : Char}
    (h : l[n]? = some c) : (l.take (n + 1)).getLast? = some c := by
  induction l generalizing n with
  | nil => simp at h
  | cons x xs ih =>
      cases n with
      | zero =>
          simp at h
          subst h
          rfl
      | succ n' =>
          have hx := ih (n := n') (by simpa using h)
          rw [List.take_succ_cons]
          cases hys : xs.take (n' + 1) with
          | nil => rw [hys] at hx; simp at hx
          | cons y ys =>
              rw [hys] at hx
              rw [List.getLast?_cons_cons]
              exact hx

/-- A list whose last element is `c` splits as `xs ++ [c]`. -/
theorem eq_concat_of_getLast? {l : List Char} {c : Char} (h : l.getLast? = some c) :
    ∃ xs, l = xs ++ [c] := by
  induction l with
  | nil => simp at h
  | cons a as ih =>
      cases as with
      | nil =>
          simp at h
          subst h
          exact ⟨[], rfl⟩
      | cons b bs =>
          rw [List.getLast?_cons_cons] at h
          obtain ⟨xs, hxs⟩ := ih h
          exact ⟨a :: xs, by rw [List.cons_append, ← hxs]⟩

/-- Dropping a prefix cannot remove a final element the predicate rejects. -/
theorem dropWhile_concat_neg {p : Char → Bool} {c : Char} (hc : p c = false) :
    ∀ xs : List Char, (xs ++ [c]).dropWhile p = xs.dropWhile p ++ [c] := by
  intro xs
  induction xs with
  | nil => simp [List.dropWhile_cons, hc]
  | cons a as ih =>
      by_cases ha : p a
      · simp only [List.cons_append, List.dropWhile_cons, ha, if_true]
        exact ih
      · have ha' : p a = false := by simpa using ha
        simp [List.dropWhile_cons, ha']

/-- Trimming a text ending in a non-whitespace character only trims its
front. -/
theorem jsTrim_concat {c : Char} (hc : jsWS c = false) (xs : List Char) :
    jsTrim (xs ++ [c]) = xs.dropWhile jsWS ++ [c] := by
  unfold jsTrim
  rw [dropWhile_concat_neg hc xs, List.reverse_append]
  simp only [List.reverse_cons, List.reverse_nil, List.nil_append, List.singleton_append]
  rw [List.dropWhile_cons, hc]
  simp only [Bool.false_eq_true, if_false]
  rw [List.reverse_cons, List.reverse_reverse]

/-- Trimming never lengthens a text. -/
theorem jsTrim_length_le (l : List Char) : (jsTrim l).length ≤ l.length := by
  unfold jsTrim
  rw [List.length_reverse]
  refine le_trans ((List.dropWhile_sublist jsWS).length_le) ?_
  rw [List.length_reverse]
  exact (List.dropWhile_sublist jsWS).length_le

/-- A two-character pattern occurring at `p` pins the element at `p`. -/
theorem two_char_at {c1 c2 : Char} {w : List Char} {p : Nat}
    (hpre : List.isPrefixOf [c1, c2] (w.drop p) = true) : w[p]? = some c1 := by
  cases hd : w.drop p with
  | nil =>
      rw [hd] at hpre
      simp [List.isPrefixOf] at hpre
  | cons a rest =>
      rw [hd] at hpre
      simp only [List.isPrefixOf, Bool.and_eq_true, beq_iff_eq] at hpre
      obtain ⟨h1, _⟩ := hpre
      subst h1
      exact getElem?_of_drop_cons hd

/-- Claim C8: on a normalized text longer than the 10,000-character cap
whose search window contains a sentence-ending delimiter, truncation cuts
immediately after the lexically-last delimiter occurrence (then trims):
the result is exactly the trimmed prefix of length `8000 + p + 1`, the
window position `p` carries a delimiter and no later position does, the
truncated length is at most 10,000, and the output text ends with that
delimiter's punctuation character. -/
theorem c8_truncation_boundary (text : List Char) (p : Nat)
    (hlen : MAXCHARS < text.length)
    (hfound : lastEndIn sentenceEndings (truncWindow text) = (p : Int)) :
    truncateText text
        = ⟨jsTrim (text.take (MAXCHARS - MAXCHARS / 5 + p + 1)), true⟩
    ∧ delimAt (truncWindow text) p = true
    ∧ (∀ q, delimAt (truncWindow text) q = true → q ≤ p)
    ∧ (truncateText text).text.length ≤ MAXCHARS
    ∧ ∃ c, (truncWindow text)[p]? = some c ∧ (c = '.' ∨ c = '!' ∨ c = '?')
        ∧ (truncateText text).text.getLast? = some c := by
  have hM : MAXCHARS = 10000 := rfl
  have h8000 : MAXCHARS - MAXCHARS / 5 = 8000 := by decide
  have hne : ∀ e ∈ sentenceEndings, e ≠ [] := by decide
  obtain ⟨hocc, hmax⟩ := lastEndIn_spec sentenceEndings hne (truncWindow text) p hfound
  have hwlen : (truncWindow text).length = 2000 := by
    unfold truncWindow
    rw [List.length_drop, List.length_take]
    rw [min_eq_left (le_of_lt hlen)]
    omega
  obtain ⟨e, he, hpre⟩ := List.any_eq_true.mp hocc
  have hplt : p < 2000 := by
    have := occ_lt_length (hne e he) hpre
    omega
  have hecases : e = ['.', ' '] ∨ e = ['.', '\n'] ∨ e = ['!', ' ']
      ∨ e = ['!', '\n'] ∨ e = ['?', ' '] ∨ e = ['?', '\n'] := by
    simpa [sentenceEndings] using he
  have hwp : ∃ c1, (truncWindow text)[p]? = some c1
      ∧ (c1 = '.' ∨ c1 = '!' ∨ c1 = '?') := by
    rcases hecases with h1 | h1 | h1 | h1 | h1 | h1 <;> subst h1
    · exact ⟨'.', two_char_at hpre, Or.inl rfl⟩
    · exact ⟨'.', two_char_at hpre, Or.inl rfl⟩
    · exact ⟨'!', two_char_at hpre, Or.inr (Or.inl rfl)⟩
    · exact ⟨'!', two_char_at hpre, Or.inr (Or.inl rfl)⟩
    · exact ⟨'?', two_char_at hpre, Or.inr (Or.inr rfl)⟩
    · exact ⟨'?', two_char_at hpre, Or.inr (Or.inr rfl)⟩
  obtain ⟨c1, hgetc, hc1cases⟩ := hwp
  have hws : jsWS c1 = false := by
    rcases hc1cases with rfl | rfl | rfl <;> decide
  have hnotle : ¬ text.length ≤ MAXCHARS := by omega
  have hSp : MAXCHARS - MAXCHARS / 5 + p + 1 ≤ MAXCHARS := by omega
  have heq : truncateText text
      = ⟨jsTrim (text.take (MAXCHARS - MAXCHARS / 5 + p + 1)), true⟩ := by
    simp only [truncateText]
    rw [if_neg hnotle]
    rw [show (text.take MAXCHARS).drop (MAXCHARS - MAXCHARS / 5) = truncWindow text
        from rfl]
    rw [hfound]
    rw [if_pos (show ((p : Int) > -1) by omega)]
    rw [Int.toNat_ofNat]
    rw [List.take_take]
    rw [min_eq_left hSp]
  refine ⟨heq, hocc, hmax, ?_, ?_⟩
  · rw [heq]
    refine le_trans (jsTrim_length_le _) ?_
    refine le_trans ?_ hSp
    rw [List.length_take]
    exact min_le_left _ _
  · refine ⟨c1, hgetc, hc1cases, ?_⟩
    rw [heq]
    have hidx : text[MAXCHARS - MAXCHARS / 5 + p]? = some c1 := by
      unfold truncWindow at hgetc
      rw [List.getElem?_drop] at hgetc
      rw [List.getElem?_take_of_lt (by omega)] at hgetc
      exact hgetc
    have hlast : (text.take (MAXCHARS - MAXCHARS / 5 + p + 1)).getLast? = some c1 :=
      getLast?_take_succ hidx
    obtain ⟨xs, hxs⟩ := eq_concat_of_getLast? hlast
    rw [hxs, jsTrim_concat hws]
    exact List.getLast?_concat _


/-! Symbolic evaluation of the truncation witness input. The replicate
terms are never materialized: every step is a targeted rewrite. -/

/-- The search window of the witness text. -/
theorem c8window_eq : truncWindow c8text = c8window := by
  unfold truncWindow c8text c8window
  rw [show MAXCHARS = 10000 from rfl]
  rw [show (10000 : Nat) - 10000 / 5 = 8000 by decide]
  rw [List.take_append_eq_append_take, List.take_append_eq_append_take]
  rw [List.length_append, List.length_replicate]
  rw [show (['.', ' '] : List Char).length = 2 from rfl]
  rw [show (9500 : Nat) + 2 = 9502 by decide]
  rw [show (10000 : Nat) - 9502 = 498 by decide]
  rw [show (10000 : Nat) - 9500 = 500 by decide]
  rw [List.take_replicate, show (10000 : Nat) ⊓ 9500 = 9500 by decide]
  rw [List.take_replicate, show (498 : Nat) ⊓ 600 = 498 by decide]
  rw [List.take_of_length_le (show (['.', ' '] : List Char).length ≤ 500 by decide)]
  rw [List.drop_append_eq_append_drop, List.drop_append_eq_append_drop]
  rw [List.length_append, List.length_replicate]
  rw [show (['.', ' '] : List Char).length = 2 from rfl]
  rw [show (9500 : Nat) + 2 = 9502 by decide]
  rw [show (8000 : Nat) - 9502 = 0 by decide]
  rw [List.drop_replicate]
  rw [show (9500 : Nat) - 8000 = 1500 by decide]
  rw [List.drop_zero, List.drop_zero]

/-- Element lookup in the witness window. -/
theorem c8window_at (q : Nat) :
    (q < 1500 → c8window[q]? = some 'a')
    ∧ c8window[1500]? = some '.'
    ∧ c8window[1501]? = some ' '
    ∧ (1502 ≤ q → c8window[q]? = (List.replicate 498 'b')[q - 1502]?) := by
  have hlen1 : (List.replicate 1500 'a' : List Char).length = 1500 :=
    List.length_replicate _ _
  have hlen2 : ((List.replicate 1500 'a' ++ ['.', ' ']) : List Char).length = 1502 := by
    rw [List.length_append, hlen1]
    rw [show (['.', ' '] : List Char).length = 2 from rfl]
  refine ⟨?_, ?_, ?_, ?_⟩
  · intro hq
    unfold c8window
    rw [List.getElem?_append_left (by omega), List.getElem?_append_left (by omega)]
    rw [List.getElem?_replicate, if_pos hq]
  · unfold c8window
    rw [List.getElem?_append_left (by omega), List.getElem?_append_right (by omega)]
    rw [hlen1]
    rw [show (1500 : Nat) - 1500 = 0 by decide]
    rfl
  · unfold c8window
    rw [List.getElem?_append_left (by omega), List.getElem?_append_right (by omega)]
    rw [hlen1]
    rw [show (1501 : Nat) - 1500 = 1 by decide]
    rfl
  · intro hq
    unfold c8window
    rw [List.getElem?_append_right (by omega), hlen2]

/-- The only punctuation position of the witness window is 1500. -/
theorem c8window_punct (q : Nat) (c : Char) (hq : c8window[q]? = some c)
    (hc : c = '.' ∨ c = '!' ∨ c = '?') : q = 1500 ∧ c = '.' := by
  rcases Nat.lt_trichotomy q 1500 with h | h | h
  · rw [(c8window_at q).1 h] at hq
    have hca : c = 'a' := by
      have := Option.some.inj hq
      exact this.symm
    subst hca
    rcases hc with h' | h' | h' <;> exact absurd h' (by decide)
  · subst h
    rw [(c8window_at 1500).2.1] at hq
    exact ⟨rfl, (Option.some.inj hq).symm⟩
  · exfalso
    rcases Nat.lt_or_ge q 1502 with h2 | h2
    · have hq1501 : q = 1501 := by omega
      subst hq1501
      rw [(c8window_at 1501).2.2.1] at hq
      have hcs : c = ' ' := (Option.some.inj hq).symm
      subst hcs
      rcases hc with h' | h' | h' <;> exact absurd h' (by decide)
    · rw [(c8window_at q).2.2.2 h2, List.getElem?_replicate] at hq
      by_cases h3 : q - 1502 < 498
      · rw [if_pos h3] at hq
        have hcb : c = 'b' := (Option.some.inj hq).symm
        subst hcb
        rcases hc with h' | h' | h' <;> exact absurd h' (by decide)
      · rw [if_neg h3] at hq
        exact Option.noConfusion hq

/-- The window after position 1500 starts with the delimiter. -/
theorem c8window_drop :
    c8window.drop 1500 = '.' :: ' ' :: List.replicate 498 'b' := by
  unfold c8window
  rw [List.drop_append_eq_append_drop, List.drop_append_eq_append_drop]
  rw [List.length_append, List.length_replicate]
  rw [show (['.', ' '] : List Char).length = 2 from rfl]
  rw [show (1500 : Nat) + 2 = 1502 by decide]
  rw [show (1500 : Nat) - 1502 = 0 by decide]
  rw [List.drop_replicate]
  rw [show (1500 : Nat) - 1500 = 0 by decide]
  rw [List.drop_zero, List.drop_zero]
  rw [List.replicate_zero, List.nil_append]
  rfl

/-- `". "` occurs at window position 1500 and nowhere later. -/
theorem c8window_dot_occ :
    List.isPrefixOf ['.', ' '] (c8window.drop 1500) = true
    ∧ ∀ q, List.isPrefixOf ['.', ' '] (c8window.drop q) = true → q ≤ 1500 := by
  constructor
  · rw [c8window_drop]
    rfl
  · intro q h
    exact le_of_eq (c8window_punct q '.' (two_char_at h) (Or.inl rfl)).1

/-- None of the other five delimiters occurs in the witness window. -/
theorem c8window_no_other :
    (∀ q, List.isPrefixOf ['.', '\n'] (c8window.drop q) = false)
    ∧ (∀ q, List.isPrefixOf ['!', ' '] (c8window.drop q) = false)
    ∧ (∀ q, List.isPrefixOf ['!', '\n'] (c8window.drop q) = false)
    ∧ (∀ q, List.isPrefixOf ['?', ' '] (c8window.drop q) = false)
    ∧ (∀ q, List.isPrefixOf ['?', '\n'] (c8window.drop q) = false) := by
  refine ⟨?_, ?_, ?_, ?_, ?_⟩
  · intro q
    cases hb : List.isPrefixOf ['.', '\n'] (c8window.drop q) with
    | false => rfl
    | true =>
        obtain ⟨hq, -⟩ := c8window_punct q '.' (two_char_at hb) (Or.inl rfl)
        subst hq
        rw [c8window_drop] at hb
        exact absurd hb (by decide)
  · intro q
    cases hb : List.isPrefixOf ['!', ' '] (c8window.drop q) with
    | false => rfl
    | true =>
        obtain ⟨-, hcontra⟩ :=
          c8window_punct q '!' (two_char_at hb) (Or.inr (Or.inl rfl))
        exact absurd hcontra (by decide)
  · intro q
    cases hb : List.isPrefixOf ['!', '\n'] (c8window.drop q) with
    | false => rfl
    | true =>
        obtain ⟨-, hcontra⟩ :=
          c8window_punct q '!' (two_char_at hb) (Or.inr (Or.inl rfl))
        exact absurd hcontra (by decide)
  · intro q
    cases hb : List.isPrefixOf ['?', ' '] (c8window.drop q) with
    | false => rfl
    | true =>
        obtain ⟨-, hcontra⟩ :=
          c8window_punct q '?' (two_char_at hb) (Or.inr (Or.inr rfl))
        exact absurd hcontra (by decide)
  · intro q
    cases hb : List.isPrefixOf ['?', '\n'] (c8window.drop q) with
    | false => rfl
    | true =>
        obtain ⟨-, hcontra⟩ :=
          c8window_punct q '?' (two_char_at hb) (Or.inr (Or.inr rfl))
        exact absurd hcontra (by decide)

/-- The search loop finds exactly position 1500 on the witness window. -/
theorem c8window_lastEnd : lastEndIn sentenceEndings c8window = ((1500 : Nat) : Int) := by
  obtain ⟨hocc, hmax⟩ := c8window_dot_occ
  obtain ⟨h2, h3, h4, h5, h6⟩ := c8window_no_other
  have hjs1 : jsLastIndexOf ['.', ' '] c8window = ((1500 : Nat) : Int) := by
    unfold jsLastIndexOf
    rw [lastIdxAux_max_occ ['.', ' '] (by decide) c8window 1500 0 none hocc hmax]
  have hjs2 : jsLastIndexOf ['.', '\n'] c8window = -1 := by
    unfold jsLastIndexOf
    rw [lastIdxAux_no_occ ['.', '\n'] c8window 0 none h2]
  have hjs3 : jsLastIndexOf ['!', ' '] c8window = -1 := by
    unfold jsLastIndexOf
    rw [lastIdxAux_no_occ ['!', ' '] c8window 0 none h3]
  have hjs4 : jsLastIndexOf ['!', '\n'] c8window = -1 := by
    unfold jsLastIndexOf
    rw [lastIdxAux_no_occ ['!', '\n'] c8window 0 none h4]
  have hjs5 : jsLastIndexOf ['?', ' '] c8window = -1 := by
    unfold jsLastIndexOf
    rw [lastIdxAux_no_occ ['?', ' '] c8window 0 none h5]
  have hjs6 : jsLastIndexOf ['?', '\n'] c8window = -1 := by
    unfold jsLastIndexOf
    rw [lastIdxAux_no_occ ['?', '\n'] c8window 0 none h6]
  unfold lastEndIn sentenceEndings
  simp only [List.foldl_cons, List.foldl_nil]
  simp only [lastEndFoldF, hjs1, hjs2, hjs3, hjs4, hjs5, hjs6]
  norm_num

/-- Witness for C8: a 10,102-character text whose only sentence delimiter
`". "` sits at window position 1500; truncation ends at its period with at
most 10,000 characters kept. -/
theorem c8_witness :
    (MAXCHARS < c8text.length
     ∧ lastEndIn sentenceEndings (truncWindow c8text) = ((1500 : Nat) : Int))
    ∧ (truncateText c8text
          = ⟨jsTrim (c8text.take (MAXCHARS - MAXCHARS / 5 + 1500 + 1)), true⟩
       ∧ delimAt (truncWindow c8text) 1500 = true
       ∧ (∀ q, delimAt (truncWindow c8text) q = true → q ≤ 1500)
       ∧ (truncateText c8text).text.length ≤ MAXCHARS
       ∧ ∃ c, (truncWindow c8text)[1500]? = some c ∧ (c = '.' ∨ c = '!' ∨ c = '?')
          ∧ (truncateText c8text).text.getLast? = some c) := by
  have h1 : MAXCHARS < c8text.length := by
    rw [show MAXCHARS = 10000 from rfl]
    unfold c8text
    rw [List.length_append, List.length_append, List.length_replicate,
      List.length_replicate]
    rw [show (['.', ' '] : List Char).length = 2 from rfl]
    omega
  have h2 : lastEndIn sentenceEndings (truncWindow c8text) = ((1500 : Nat) : Int) := by
    rw [c8window_eq]
    exact c8window_lastEnd
  exact ⟨⟨h1, h2⟩, c8_truncation_boundary c8text 1500 h1 h2⟩
